import Mathlib

/-!
Verification of the `elvuiUpdater` repository (three revisions of a small Go
program that updates the ElvUI World-of-Warcraft addon).

The Go code is shallowly embedded: every stage of the pipeline becomes a pure
Lean function over explicit oracle records (`InitEnv`, `HttpEnv`, `DLEnv`,
`World`) that supply the outcomes of the external effects (file reads, the
Windows registry, HTTP requests, filesystem operations).  Version numbers
parsed by `strconv.ParseFloat` are modelled as exact rationals built with
`mkRat`; errors are modelled as strings, with `errors.Wrapf` modelled as
message prefixing.  Filesystem paths are lists of components, and
`filepath.Join`'s lexical cleaning (dropping `.` and empty components,
resolving `..`) is modelled by `joinClean`.
-/

set_option autoImplicit false

namespace Elvui

/-- Errors are carried as strings; `errors.Wrapf msg err` produces `msg: err`. -/
abbrev GoError : Type := String

/-- Model of `errors.Wrap`/`errors.Wrapf`: prefix the message to the cause. -/
def wrapf (msg : String) (e : GoError) : GoError := msg ++ ": " ++ e

/-- Whether an `Except` value is a success. -/
def exOk {ε α : Type} : Except ε α → Bool
  | .ok _ => true
  | .error _ => false

instance {ε α : Type} [DecidableEq ε] [DecidableEq α] : DecidableEq (Except ε α) := fun a b =>
  match a, b with
  | .ok x, .ok y =>
    if h : x = y then .isTrue (by rw [h]) else .isFalse (by intro hc; cases hc; exact h rfl)
  | .error x, .error y =>
    if h : x = y then .isTrue (by rw [h]) else .isFalse (by intro hc; cases hc; exact h rfl)
  | .ok _, .error _ => .isFalse (by intro hc; cases hc)
  | .error _, .ok _ => .isFalse (by intro hc; cases hc)

/-! ### Character and string utilities (models of `strings` / `strconv` helpers) -/

/-- ASCII decimal digit test (kernel-friendly form of `Char.isDigit`). -/
def isDigitCh (c : Char) : Bool := 48 ≤ c.toNat && c.toNat ≤ 57

/-- Whitespace as recognised by Go's `strings.TrimSpace` on ASCII input. -/
def isSpaceCh (c : Char) : Bool :=
  c = ' ' || c = '\t' || c = '\n' || c = '\r' || c = '\x0b' || c = '\x0c'

/-- Model of `strings.TrimSpace` on the character list of a string. -/
def trimSpace (l : List Char) : List Char :=
  ((l.dropWhile isSpaceCh).reverse.dropWhile isSpaceCh).reverse

/-- Numeric value of a list of ASCII digits, most significant first. -/
def digitsToNat (l : List Char) : ℕ :=
  l.foldl (fun a c => 10 * a + (c.toNat - 48)) 0

/-- Model of `strconv.ParseFloat` restricted to plain decimal literals
(optional sign, integer digits, optional fractional digits).  The exact
float64 rounding is idealised away: the parsed value is the exact rational
denoted by the literal.  Inputs outside this decimal fragment are rejected,
as `ParseFloat` rejects malformed inputs. -/
def parseFloat? (s : List Char) : Option ℚ :=
  let signAndRest : ℤ × List Char :=
    match s with
    | '+' :: r => (1, r)
    | '-' :: r => (-1, r)
    | r => (1, r)
  let sgn := signAndRest.1
  let rest := signAndRest.2
  let intPart := rest.takeWhile isDigitCh
  let rest2 := rest.dropWhile isDigitCh
  match rest2 with
  | [] =>
    if intPart.isEmpty then none
    else some (mkRat (sgn * Int.ofNat (digitsToNat intPart)) 1)
  | '.' :: frac =>
    if frac.all isDigitCh && !(intPart.isEmpty && frac.isEmpty) then
      let den : ℕ := Nat.pow 10 frac.length
      some (mkRat (sgn * (Int.ofNat (digitsToNat intPart) * Int.ofNat den
        + Int.ofNat (digitsToNat frac))) den)
    else none
  | _ => none

/-- Splits a character list at path separators (`/` and `\`), the components
of `filepath`-style paths.  Components are returned in order; separators are
dropped. -/
def splitSlashAux (acc : List Char) : List Char → List String
  | [] => [String.mk acc.reverse]
  | c :: r =>
    if c = '/' || c = '\\' then String.mk acc.reverse :: splitSlashAux [] r
    else splitSlashAux (c :: acc) r

/-- Path components of a string. -/
def splitSlash (s : String) : List String := splitSlashAux [] s.data

/-- Model of the lexical cleaning performed by `filepath.Join base name`:
starting from the (already clean, absolute) components of `base`, empty and
`.` components of `name` are dropped and `..` removes the last accumulated
component. -/
def joinClean (base : List String) (comps : List String) : List String :=
  comps.foldl
    (fun acc c =>
      if c = "" then acc
      else if c = "." then acc
      else if c = ".." then acc.dropLast
      else acc ++ [c])
    base

/-- The `'\n'`-terminated lines of a character stream, in order, each
including its final newline — exactly the strings that the Go loop around
`bufio.Reader.ReadString('\n')` sees before `io.EOF`.  Characters after the
last newline (the unterminated final chunk, returned by `ReadString`
together with `io.EOF`) are not included. -/
def termLinesAux (acc : List Char) : List Char → List (List Char)
  | [] => []
  | c :: r =>
    if c = '\n' then ((c :: acc).reverse) :: termLinesAux [] r
    else termLinesAux (c :: acc) r

/-- Terminated lines of a file's contents. -/
def termLines (s : List Char) : List (List Char) := termLinesAux [] s

/-- The characters after the last newline: the chunk that
`bufio.Reader.ReadString('\n')` returns together with `io.EOF`. -/
def trailingChunkAux (acc : List Char) : List Char → List Char
  | [] => acc.reverse
  | c :: r => if c = '\n' then trailingChunkAux [] r else trailingChunkAux (c :: acc) r

/-- Unterminated final chunk of a file's contents. -/
def trailingChunk (s : List Char) : List Char := trailingChunkAux [] s

/-! ### Data model (final revision, `src/main.go`) -/

/-- The fields of `configuration` populated by `json.Unmarshal` from
`config.json`: the endpoint `Page` and the `Directories` to replace (the
unexported `addon` field is filled in later by `init`). -/
structure Config where
  Page : String
  Directories : List String
deriving DecidableEq

/-- The JSON body decoded by `setRemoteVersionNDownloadURL`
(`APIResponse` in `src/main.go`). -/
structure APIResponse where
  url : String
  version : String
deriving DecidableEq

/-- One entry of the downloaded zip archive: its name and whether
`f.FileInfo().IsDir()` holds. -/
structure ZipEntry where
  name : String
  isDir : Bool
deriving DecidableEq

/-- Filesystem operations issued by `downloadAndExtract`, with the already
cleaned path they target. -/
inductive FSOp : Type
  | removeAll (path : List String)
  | mkdirAll (path : List String)
  | createFile (path : List String)
deriving DecidableEq

/-- The target path of a filesystem operation. -/
def FSOp.target : FSOp → List String
  | .removeAll p => p
  | .mkdirAll p => p
  | .createFile p => p

/-- Whether a filesystem operation is the destructive `os.RemoveAll`. -/
def FSOp.isRemove : FSOp → Bool
  | .removeAll _ => true
  | _ => false

/-- Windows registry operations issued by `init`. -/
inductive RegOp : Type
  | openKey (root : String) (path : String)
  | getStringValue (name : String)
deriving DecidableEq

/-- Network requests issued through the configured `http.Client`. -/
inductive NetOp : Type
  | doRequest (url : String)
deriving DecidableEq

/-! ### `init`: configuration load and install-path resolution -/

/-- Registry path of the WoW installation key opened by `init`. -/
def wowKeyPath : String :=
  "SOFTWARE\\Wow6432Node\\Blizzard Entertainment\\World of Warcraft"

/-- Oracle for the effects performed by `init` (`src/main.go` lines 44-66):
the outcome of `ioutil.ReadFile("config.json")`, of `json.Unmarshal`, of
`registry.OpenKey`, and of `k.GetStringValue("InstallPath")`. -/
structure InitEnv where
  readFile : Except GoError Unit
  unmarshal : Except GoError Config
  openKey : Except GoError Unit
  getValue : Except GoError String
deriving DecidableEq

/-- The configuration-load half of `init`: `ioutil.ReadFile` followed by
`json.Unmarshal`, with the error wrapping of `src/main.go` lines 45-51. -/
def loadConfigStep (env : InitEnv) : Except GoError Config :=
  match env.readFile with
  | .error e => .error (wrapf "cannot read file config.json" e)
  | .ok _ =>
    match env.unmarshal with
    | .error e => .error (wrapf "cannot unmarshal config" e)
    | .ok cfg => .ok cfg

/-- The install-path-resolution half of `init` (`src/main.go` lines 53-63):
open the WoW registry key, read its `InstallPath` string value, and join it
with `Interface` and `AddOns`.  Returns the registry operations issued and
the resolved addon path. -/
def resolvePathStep (env : InitEnv) : List RegOp × Except GoError (List String) :=
  match env.openKey with
  | .error e =>
    ([RegOp.openKey "HKEY_LOCAL_MACHINE" wowKeyPath],
      .error (wrapf "cannot find WoW install directory" e))
  | .ok _ =>
    match env.getValue with
    | .error e =>
      ([RegOp.openKey "HKEY_LOCAL_MACHINE" wowKeyPath, RegOp.getStringValue "InstallPath"],
        .error (wrapf "cannot find WoW install directory" e))
    | .ok s =>
      ([RegOp.openKey "HKEY_LOCAL_MACHINE" wowKeyPath, RegOp.getStringValue "InstallPath"],
        .ok (joinClean (splitSlash s) ["Interface", "AddOns"]))

/-- Model of `(e *elvui) init` in `src/main.go`: configuration load followed by
install-path resolution, aborting at the first error. -/
def initRun (env : InitEnv) : List RegOp × Except GoError (Config × List String) :=
  match loadConfigStep env with
  | .error e => ([], .error e)
  | .ok cfg =>
    match resolvePathStep env with
    | (ops, .error e) => (ops, .error e)
    | (ops, .ok p) => (ops, .ok (cfg, p))

/-! ### `getLocalVersion` -/

/-- The marker that `getLocalVersion` searches for. -/
def verMarker : List Char := "## Version: ".data

/-- The loop of `getLocalVersion` (`src/main.go` lines 104-121) over the
newline-terminated lines delivered by `ReadString('\n')`: the first line
with the `## Version: ` marker has the marker removed and its final
character (the newline) dropped, is whitespace-trimmed and parsed; if no
terminated line carries the marker the not-found error is produced. -/
def findVersion (tocPath : String) : List (List Char) → Except GoError ℚ
  | [] => .error ("local version not found at " ++ tocPath)
  | l :: ls =>
    if verMarker.isPrefixOf l then
      let raw := trimSpace ((l.drop verMarker.length).dropLast)
      match parseFloat? raw with
      | some q => .ok q
      | none => .error ("cannot parse version number " ++ String.mk raw)
    else findVersion tocPath ls

/-- Model of `(e *elvui) getLocalVersion` in `src/main.go`: open the `.toc` file
(outcome given by the oracle `tocOpen`, carrying the file contents on
success) and scan its terminated lines for the version marker.  Mid-file
read errors of `bufio` other than `io.EOF` are not modelled: the oracle
either fails to open or delivers the whole contents. -/
def getLocalVersion (tocPath : String) (tocOpen : Except GoError String) : Except GoError ℚ :=
  match tocOpen with
  | .error e => .error (wrapf ("cannot open file " ++ tocPath) e)
  | .ok content => findVersion tocPath (termLines content.data)

/-! ### `setRemoteVersionNDownloadURL` -/

/-- Oracle for the effects performed by `setRemoteVersionNDownloadURL`
(`src/main.go` lines 68-91): the outcome of `http.NewRequest`, of
`e.client.Do`, and of decoding the response body into an `APIResponse`. -/
structure HttpEnv where
  newRequest : Except GoError Unit
  doReq : Except GoError Unit
  decode : Except GoError APIResponse

/-- Model of `(e *elvui) setRemoteVersionNDownloadURL` in `src/main.go`: build the
request for `e.Page`, perform it once, decode the JSON body, parse the
`version` field as a float and take the `url` field as the download URL.
Returns the network operations issued and the remote version paired with
the download URL. -/
def setRemoteVersionNDownloadURL (page : String) (env : HttpEnv) :
    List NetOp × Except GoError (ℚ × String) :=
  match env.newRequest with
  | .error e => ([], .error e)
  | .ok _ =>
    match env.doReq with
    | .error e => ([NetOp.doRequest page], .error e)
    | .ok _ =>
      match env.decode with
      | .error e => ([NetOp.doRequest page], .error e)
      | .ok api =>
        match parseFloat? api.version.data with
        | some q => ([NetOp.doRequest page], .ok (q, api.url))
        | none =>
          ([NetOp.doRequest page], .error ("cannot parse version number " ++ api.version))

/-! ### `downloadAndExtract` (final revision) -/

/-- Oracle for the effects performed by `downloadAndExtract`: the outcome of
`http.Get` (keyed by the requested URL), of `ioutil.ReadAll` on the body, of
`zip.NewReader` (carrying the archive's entries on success), and possible
failures of the individual filesystem operations, of `f.Open` on a zip
entry, and of `io.Copy` for a zip entry. -/
structure DLEnv where
  httpGet : String → Except GoError Unit
  readAll : Except GoError Unit
  zipNew : Except GoError (List ZipEntry)
  fsFail : FSOp → Option GoError
  zipEntryOpenFail : ZipEntry → Option GoError
  copyFail : ZipEntry → Option GoError

/-- The `os.RemoveAll` operation for one configured directory:
`filepath.Join(e.addon, dir)` (`src/main.go` line 144). -/
def removeOp (addon : List String) (d : String) : FSOp :=
  .removeAll (joinClean addon (splitSlash d))

/-- The cleaned path `filepath.Join(e.addon, f.Name)` of a zip entry
(`src/main.go` lines 152 and 163). -/
def entryPath (addon : List String) (f : ZipEntry) : List String :=
  joinClean addon (splitSlash f.name)

/-- The filesystem operation that extraction issues for a zip entry:
`os.MkdirAll` for directories, `os.Create` for files. -/
def entryOp (addon : List String) (f : ZipEntry) : FSOp :=
  if f.isDir then .mkdirAll (entryPath addon f) else .createFile (entryPath addon f)

/-- The removal loop of `downloadAndExtract` (`src/main.go` lines 142-148):
`os.RemoveAll` on each configured directory in order, aborting at the first
failure.  Returns the operations issued and the outcome. -/
def removeLoop (addon : List String) (fsFail : FSOp → Option GoError) :
    List String → List FSOp × Except GoError Unit
  | [] => ([], .ok ())
  | d :: ds =>
    let op := removeOp addon d
    match fsFail op with
    | some e => ([op], .error (wrapf "cannot remove directory" e))
    | none =>
      let r := removeLoop addon fsFail ds
      (op :: r.1, r.2)

/-- The extraction loop of `downloadAndExtract` (`src/main.go` lines
150-177): directories become `os.MkdirAll`, files are opened inside the
zip, created with `os.Create` and filled with `io.Copy`, aborting at the
first failure. -/
def extractLoop (addon : List String) (fsFail : FSOp → Option GoError)
    (zipEntryOpenFail copyFail : ZipEntry → Option GoError) :
    List ZipEntry → List FSOp × Except GoError Unit
  | [] => ([], .ok ())
  | f :: fs =>
    if f.isDir then
      let op := FSOp.mkdirAll (entryPath addon f)
      match fsFail op with
      | some e => ([op], .error (wrapf "cannot create directory" e))
      | none =>
        let r := extractLoop addon fsFail zipEntryOpenFail copyFail fs
        (op :: r.1, r.2)
    else
      match zipEntryOpenFail f with
      | some e => ([], .error (wrapf "cannot open file inside zip" e))
      | none =>
        let op := FSOp.createFile (entryPath addon f)
        match fsFail op with
        | some e => ([op], .error (wrapf "cannot create file" e))
        | none =>
          match copyFail f with
          | some e => ([op], .error (wrapf "cannot extract content" e))
          | none =>
            let r := extractLoop addon fsFail zipEntryOpenFail copyFail fs
            (op :: r.1, r.2)

/-- Model of `(e elvui) downloadAndExtract` in `src/main.go` (lines 124-180):
`http.Get(e.downloadURL)`, `ioutil.ReadAll`, `zip.NewReader`, then the
removal loop over `e.Directories` followed by the extraction loop over the
archive entries.  Returns the filesystem operations issued and the
outcome. -/
def downloadAndExtract (addon : List String) (dirs : List String) (url : String)
    (env : DLEnv) : List FSOp × Except GoError Unit :=
  match env.httpGet url with
  | .error e => ([], .error (wrapf ("cannot download file url " ++ url) e))
  | .ok _ =>
    match env.readAll with
    | .error e => ([], .error (wrapf "cannot read response" e))
    | .ok _ =>
      match env.zipNew with
      | .error e => ([], .error (wrapf "cannot create zip reader" e))
      | .ok files =>
        match removeLoop addon env.fsFail dirs with
        | (ops, .error e) => (ops, .error e)
        | (ops, .ok _) =>
          let ext := extractLoop addon env.fsFail env.zipEntryOpenFail env.copyFail files
          (ops ++ ext.1, ext.2)

/-! ### `main` (final revision) -/

/-- The pipeline stages of `main`. -/
inductive Stage : Type
  | loadConfig
  | resolvePath
  | readLocal
  | fetchRemote
  | compare
  | download
deriving DecidableEq

/-- The full stage order of the pipeline. -/
def fullPipeline : List Stage :=
  [.loadConfig, .resolvePath, .readLocal, .fetchRemote, .compare, .download]

/-- How a run of `main` terminates: normally, or through `log.Fatalf`
(which exits the process with status 1). -/
inductive Outcome : Type
  | normal
  | fatal (e : GoError)
deriving DecidableEq

/-- The process exit status of an outcome: `log.Fatalf` calls `os.Exit(1)`. -/
def exitCode : Outcome → ℕ
  | .normal => 0
  | .fatal _ => 1

/-- The log line written by `log.Fatalf("Fatal: %+v\n", err)`. -/
def fatalLog (e : GoError) : String := "Fatal: " ++ e

/-- Observable result of one run of `main`: the stages entered in order, the
log lines written, the filesystem operations issued, and the outcome. -/
structure RunResult where
  trace : List Stage
  logs : List String
  fsOps : List FSOp
  outcome : Outcome
deriving DecidableEq

/-- Oracle for one whole run: the effects of `init`, the `.toc` open (with
contents), the remote query, and the download. -/
structure World where
  initEnv : InitEnv
  tocOpen : Except GoError String
  http : HttpEnv
  dl : DLEnv

/-- The `.toc` path `filepath.Join(e.addon, e.localName, e.localName+"_Mainline.toc")`
rendered for error messages. -/
def tocPathOf (addon : List String) (localName : String) : String :=
  String.intercalate "/" (addon ++ [localName, localName ++ "_Mainline.toc"])

/-- Model of `func main()` in `src/main.go` (lines 182-205): init (configuration load,
then install-path resolution), local version read, remote version fetch,
version comparison, and, only when the remote version is strictly greater,
`downloadAndExtract`; each failing stage logs `Fatal:` and exits with
status 1 without running any later stage. -/
def mainRun (w : World) : RunResult :=
  match loadConfigStep w.initEnv with
  | .error e => ⟨[.loadConfig], [fatalLog e], [], .fatal e⟩
  | .ok cfg =>
    match (resolvePathStep w.initEnv).2 with
    | .error e => ⟨[.loadConfig, .resolvePath], [fatalLog e], [], .fatal e⟩
    | .ok addon =>
      match getLocalVersion (tocPathOf addon "ElvUI") w.tocOpen with
      | .error e => ⟨[.loadConfig, .resolvePath, .readLocal], [fatalLog e], [], .fatal e⟩
      | .ok lv =>
        match (setRemoteVersionNDownloadURL cfg.Page w.http).2 with
        | .error e =>
          ⟨[.loadConfig, .resolvePath, .readLocal, .fetchRemote], [fatalLog e], [], .fatal e⟩
        | .ok (rv, url) =>
          if lv < rv then
            match downloadAndExtract addon cfg.Directories url w.dl with
            | (ops, .error e) => ⟨fullPipeline, ["Upgrading", fatalLog e], ops, .fatal e⟩
            | (ops, .ok _) => ⟨fullPipeline, ["Upgrading", "Success"], ops, .normal⟩
          else
            ⟨[.loadConfig, .resolvePath, .readLocal, .fetchRemote, .compare],
              ["Nothing to do"], [], .normal⟩

/-- The version comparison of the final revision's `main`
(`src/main.go` line 197): `conf.remoteVersion > conf.localVersion`. -/
def upgradeNeededV3 (rv lv : ℚ) : Bool := decide (rv > lv)

/-! ### The two earlier revisions (`src/unnamed/part_000` = V1,
`src/unnamed/part_001` = V2)

Both earlier revisions scrape an HTML page for the remote version and build
the download URL from it; their `downloadAndExtract` bodies otherwise match
the final revision (V1 returns library errors unwrapped, V2 wraps them like
the final revision). -/

/-- Model of Go's `strings.ToLower` on ASCII input. -/
def lowerStr (s : String) : String := String.mk (s.data.map Char.toLower)

/-- Model of `fmt.Sprintf("%.2f", q)`: the value rendered with two decimal
digits.  The float64 rounding mode is idealised to truncation toward
negative infinity; the claims never depend on the rendered digits. -/
def fmt2 (q : ℚ) : String :=
  let n : ℤ := (Rat.mul q (mkRat 100 1)).floor
  toString (n / 100) ++ "." ++ toString (n % 100 / 10) ++ toString (n % 10)

/-- The download link built by V1's `downloadAndExtract`
(`src/unnamed/part_000` lines 93-94):
`fmt.Sprintf("http://www.tukui.org/downloads/%s-%.2f.zip", strings.ToLower(e.localName), e.remoteVersion)`. -/
def dlLinkV1 (localName : String) (rv : ℚ) : String :=
  "http://www.tukui.org/downloads/" ++ lowerStr localName ++ "-" ++ fmt2 rv ++ ".zip"

/-- The version comparison of V1's `main` (`src/unnamed/part_000` line 162). -/
def upgradeNeededV1 (rv lv : ℚ) : Bool := decide (rv > lv)

/-- V1's removal loop (`src/unnamed/part_000` lines 114-118): like the final
revision's, but errors are returned unwrapped. -/
def removeLoopV1 (addon : List String) (fsFail : FSOp → Option GoError) :
    List String → List FSOp × Except GoError Unit
  | [] => ([], .ok ())
  | d :: ds =>
    let op := removeOp addon d
    match fsFail op with
    | some e => ([op], .error e)
    | none =>
      let r := removeLoopV1 addon fsFail ds
      (op :: r.1, r.2)

/-- V1's extraction loop (`src/unnamed/part_000` lines 120-145): like the
final revision's, but errors are returned unwrapped. -/
def extractLoopV1 (addon : List String) (fsFail : FSOp → Option GoError)
    (zipEntryOpenFail copyFail : ZipEntry → Option GoError) :
    List ZipEntry → List FSOp × Except GoError Unit
  | [] => ([], .ok ())
  | f :: fs =>
    if f.isDir then
      let op := FSOp.mkdirAll (entryPath addon f)
      match fsFail op with
      | some e => ([op], .error e)
      | none =>
        let r := extractLoopV1 addon fsFail zipEntryOpenFail copyFail fs
        (op :: r.1, r.2)
    else
      match zipEntryOpenFail f with
      | some e => ([], .error e)
      | none =>
        let op := FSOp.createFile (entryPath addon f)
        match fsFail op with
        | some e => ([op], .error e)
        | none =>
          match copyFail f with
          | some e => ([op], .error e)
          | none =>
            let r := extractLoopV1 addon fsFail zipEntryOpenFail copyFail fs
            (op :: r.1, r.2)

/-- V1's `downloadAndExtract` (`src/unnamed/part_000` lines 92-148): builds
the download link from the lower-cased addon name and the remote version,
then downloads, opens the zip, removes the configured directories and
extracts — with unwrapped errors. -/
def downloadAndExtractV1 (localName : String) (rv : ℚ) (addon : List String)
    (dirs : List String) (env : DLEnv) : List FSOp × Except GoError Unit :=
  let dlLink := dlLinkV1 localName rv
  match env.httpGet dlLink with
  | .error e => ([], .error e)
  | .ok _ =>
    match env.readAll with
    | .error e => ([], .error e)
    | .ok _ =>
      match env.zipNew with
      | .error e => ([], .error e)
      | .ok files =>
        match removeLoopV1 addon env.fsFail dirs with
        | (ops, .error e) => (ops, .error e)
        | (ops, .ok _) =>
          let ext := extractLoopV1 addon env.fsFail env.zipEntryOpenFail env.copyFail files
          (ops ++ ext.1, ext.2)

/-- The download link built by V2's `downloadAndExtract`
(`src/unnamed/part_001` lines 113-114), the same construction as V1's. -/
def dlLinkV2 (localName : String) (rv : ℚ) : String :=
  "http://www.tukui.org/downloads/" ++ lowerStr localName ++ "-" ++ fmt2 rv ++ ".zip"

/-- The version comparison of V2's `main` (`src/unnamed/part_001` line 185). -/
def upgradeNeededV2 (rv lv : ℚ) : Bool := decide (rv > lv)

/-- V2's removal loop (`src/unnamed/part_001` lines 134-139), with the same
error wrapping as the final revision. -/
def removeLoopV2 (addon : List String) (fsFail : FSOp → Option GoError) :
    List String → List FSOp × Except GoError Unit
  | [] => ([], .ok ())
  | d :: ds =>
    let op := removeOp addon d
    match fsFail op with
    | some e => ([op], .error (wrapf "cannot remove directory" e))
    | none =>
      let r := removeLoopV2 addon fsFail ds
      (op :: r.1, r.2)

/-- V2's extraction loop (`src/unnamed/part_001` lines 141-168), with the
same error wrapping as the final revision. -/
def extractLoopV2 (addon : List String) (fsFail : FSOp → Option GoError)
    (zipEntryOpenFail copyFail : ZipEntry → Option GoError) :
    List ZipEntry → List FSOp × Except GoError Unit
  | [] => ([], .ok ())
  | f :: fs =>
    if f.isDir then
      let op := FSOp.mkdirAll (entryPath addon f)
      match fsFail op with
      | some e => ([op], .error (wrapf "cannot create directory" e))
      | none =>
        let r := extractLoopV2 addon fsFail zipEntryOpenFail copyFail fs
        (op :: r.1, r.2)
    else
      match zipEntryOpenFail f with
      | some e => ([], .error (wrapf "cannot open file inside zip" e))
      | none =>
        let op := FSOp.createFile (entryPath addon f)
        match fsFail op with
        | some e => ([op], .error (wrapf "cannot create file" e))
        | none =>
          match copyFail f with
          | some e => ([op], .error (wrapf "cannot extract content" e))
          | none =>
            let r := extractLoopV2 addon fsFail zipEntryOpenFail copyFail fs
            (op :: r.1, r.2)

/-- V2's `downloadAndExtract` (`src/unnamed/part_001` lines 112-171): the
V1/V2 link construction combined with the final revision's error
wrapping. -/
def downloadAndExtractV2 (localName : String) (rv : ℚ) (addon : List String)
    (dirs : List String) (env : DLEnv) : List FSOp × Except GoError Unit :=
  let dlLink := dlLinkV2 localName rv
  match env.httpGet dlLink with
  | .error e => ([], .error (wrapf ("cannot download file url " ++ dlLink) e))
  | .ok _ =>
    match env.readAll with
    | .error e => ([], .error (wrapf "cannot read response" e))
    | .ok _ =>
      match env.zipNew with
      | .error e => ([], .error (wrapf "cannot create zip reader" e))
      | .ok files =>
        match removeLoopV2 addon env.fsFail dirs with
        | (ops, .error e) => (ops, .error e)
        | (ops, .ok _) =>
          let ext := extractLoopV2 addon env.fsFail env.zipEntryOpenFail env.copyFail files
          (ops ++ ext.1, ext.2)

/-! ### Auxiliary definitions for the claims -/

/-- The position of a stage in the pipeline order. -/
def stageIdx : Stage → ℕ
  | .loadConfig => 0
  | .resolvePath => 1
  | .readLocal => 2
  | .fetchRemote => 3
  | .compare => 4
  | .download => 5

/-- The stages entered when the pipeline aborts in stage `s`: all stages up
to and including `s`. -/
def stagesUpTo : Stage → List Stage
  | .loadConfig => [.loadConfig]
  | .resolvePath => [.loadConfig, .resolvePath]
  | .readLocal => [.loadConfig, .resolvePath, .readLocal]
  | .fetchRemote => [.loadConfig, .resolvePath, .readLocal, .fetchRemote]
  | .compare => [.loadConfig, .resolvePath, .readLocal, .fetchRemote, .compare]
  | .download => fullPipeline

/-- Predicate `runsAndFails w s e` states that in the run determined by `w` the stage
`s` is reached, runs, and returns the error `e` (all earlier stages
succeed; the download stage additionally requires the comparison to have
chosen it).  The comparison stage itself cannot fail. -/
def runsAndFails (w : World) : Stage → GoError → Prop
  | .loadConfig, e => loadConfigStep w.initEnv = .error e
  | .resolvePath, e =>
    (∃ cfg, loadConfigStep w.initEnv = .ok cfg) ∧
    (resolvePathStep w.initEnv).2 = .error e
  | .readLocal, e =>
    ∃ cfg p, loadConfigStep w.initEnv = .ok cfg ∧
      (resolvePathStep w.initEnv).2 = .ok p ∧
      getLocalVersion (tocPathOf p "ElvUI") w.tocOpen = .error e
  | .fetchRemote, e =>
    ∃ cfg p lv, loadConfigStep w.initEnv = .ok cfg ∧
      (resolvePathStep w.initEnv).2 = .ok p ∧
      getLocalVersion (tocPathOf p "ElvUI") w.tocOpen = .ok lv ∧
      (setRemoteVersionNDownloadURL cfg.Page w.http).2 = .error e
  | .compare, _ => False
  | .download, e =>
    ∃ cfg p lv rv u, loadConfigStep w.initEnv = .ok cfg ∧
      (resolvePathStep w.initEnv).2 = .ok p ∧
      getLocalVersion (tocPathOf p "ElvUI") w.tocOpen = .ok lv ∧
      (setRemoteVersionNDownloadURL cfg.Page w.http).2 = .ok (rv, u) ∧
      lv < rv ∧
      (downloadAndExtract p cfg.Directories u w.dl).2 = .error e

/-- An install path used in concrete runs. -/
def addonEx : List String := ["C:", "WoW", "Interface", "AddOns"]

/-- A download environment whose archive carries a `..` entry name. -/
def dlEnvSlip : DLEnv :=
  { httpGet := fun _ => .ok ()
    readAll := .ok ()
    zipNew := .ok [{ name := "../evil.lua", isDir := false }]
    fsFail := fun _ => none
    zipEntryOpenFail := fun _ => none
    copyFail := fun _ => none }

/-- A well-formed download environment used in concrete runs. -/
def dlEnvOk : DLEnv :=
  { httpGet := fun _ => .ok ()
    readAll := .ok ()
    zipNew := .ok [{ name := "ElvUI/", isDir := true }, { name := "ElvUI/core.lua", isDir := false }]
    fsFail := fun _ => none
    zipEntryOpenFail := fun _ => none
    copyFail := fun _ => none }

/-- An `init` oracle in which every effect succeeds. -/
def initEnvOk : InitEnv :=
  { readFile := .ok ()
    unmarshal := .ok { Page := "https://api", Directories := ["ElvUI"] }
    openKey := .ok ()
    getValue := .ok "C:\\WoW" }

/-- A world in which every stage succeeds and the remote version `13.2` is
not newer than the local version `13.3`. -/
def worldUpToDate : World :=
  { initEnv := initEnvOk
    tocOpen := .ok "## Version: 13.3\n"
    http :=
      { newRequest := .ok ()
        doReq := .ok ()
        decode := .ok { url := "https://dl/x.zip", version := "13.2" } }
    dl := dlEnvOk }

/-- A world in which the remote fetch fails with `boom` after the earlier
stages succeed. -/
def worldRemoteDown : World :=
  { initEnv := initEnvOk
    tocOpen := .ok "## Version: 13.3\n"
    http :=
      { newRequest := .ok ()
        doReq := .error "boom"
        decode := .ok { url := "https://dl/x.zip", version := "13.2" } }
    dl := dlEnvOk }

/-! ### Helper lemmas -/

/-- When no terminated line carries the marker, the scan reports
`local version not found`. -/
theorem findVersion_notFound (p : String) (ls : List (List Char))
    (h : ∀ l ∈ ls, verMarker.isPrefixOf l = false) :
    findVersion p ls = .error ("local version not found at " ++ p) := by
  induction ls with
  | nil => rfl
  | cons l ls ih =>
    have hl := h l (by simp)
    simp only [findVersion, hl, Bool.false_eq_true, if_false]
    exact ih (fun l' hl' => h l' (List.mem_cons_of_mem l hl'))

/-- The scan stops at the first terminated line carrying the marker and
parses the trimmed slice of that line. -/
theorem findVersion_found (p : String) (pre post : List (List Char)) (l : List Char)
    (hpre : ∀ l' ∈ pre, verMarker.isPrefixOf l' = false)
    (hl : verMarker.isPrefixOf l = true) :
    findVersion p (pre ++ l :: post) =
      match parseFloat? (trimSpace ((l.drop verMarker.length).dropLast)) with
      | some q => .ok q
      | none => .error ("cannot parse version number "
          ++ String.mk (trimSpace ((l.drop verMarker.length).dropLast))) := by
  induction pre with
  | nil => simp only [List.nil_append, findVersion, hl, if_true]
  | cons a pre ih =>
    have ha := hpre a (by simp)
    simp only [List.cons_append, findVersion, ha, Bool.false_eq_true, if_false]
    exact ih (fun l' hl' => hpre l' (by simp [hl']))

/-! ### Claims C4 and C10: `getLocalVersion` -/

/-- Claim C4: `getLocalVersion` returns the floating-point value parsed from
the first (newline-terminated) line of the `.toc` file that begins with
`## Version: ` — the marker removed, the line's final character dropped and
surrounding whitespace trimmed — and returns the error
`local version not found` when no such line exists. -/
theorem claim_C4 (path content : String) :
    (∀ pre l post,
      termLines content.data = pre ++ l :: post →
      (∀ l' ∈ pre, verMarker.isPrefixOf l' = false) →
      verMarker.isPrefixOf l = true →
      getLocalVersion path (.ok content) =
        match parseFloat? (trimSpace ((l.drop verMarker.length).dropLast)) with
        | some q => .ok q
        | none => .error ("cannot parse version number "
            ++ String.mk (trimSpace ((l.drop verMarker.length).dropLast)))) ∧
    ((∀ l ∈ termLines content.data, verMarker.isPrefixOf l = false) →
      getLocalVersion path (.ok content) =
        .error ("local version not found at " ++ path)) := by
  constructor
  · intro pre l post hsplit hpre hl
    show findVersion path (termLines content.data) = _
    rw [hsplit]
    exact findVersion_found path pre post l hpre hl
  · intro h
    exact findVersion_notFound path (termLines content.data) h

/-- Witness for C4 on a concrete `.toc` file. -/
theorem claim_C4_witness :
    getLocalVersion "p" (.ok "## Author: x\n## Version: 13.3\n## Y\n") = .ok (mkRat 133 10) := by
  have h := (claim_C4 "p" "## Author: x\n## Version: 13.3\n## Y\n").1
    ["## Author: x\n".data] "## Version: 13.3\n".data ["## Y\n".data]
    (by decide) (by decide) (by decide)
  rw [h]
  decide

/-- Claim C10: a `## Version: ` marker line that is the unterminated last
line of the `.toc` file is never examined — `ReadString` reports `io.EOF`
for it and the loop breaks — so `getLocalVersion` reports
`local version not found` even though the marker is present in the file. -/
theorem claim_C10 (path content : String)
    (hterm : ∀ l ∈ termLines content.data, verMarker.isPrefixOf l = false)
    (htrail : verMarker.isPrefixOf (trailingChunk content.data) = true) :
    getLocalVersion path (.ok content) =
      .error ("local version not found at " ++ path) := by
  have _ := htrail
  exact findVersion_notFound path (termLines content.data) hterm

/-- Witness for C10: the only marker line lacks a final newline and is
ignored. -/
theorem claim_C10_witness :
    getLocalVersion "p" (.ok "## Author: x\n## Version: 13.3") =
      .error "local version not found at p" := by
  have h := claim_C10 "p" "## Author: x\n## Version: 13.3" (by decide) (by decide)
  rw [h]
  decide

/-! ### Claim C6: `setRemoteVersionNDownloadURL` -/

/-- Claim C6: `setRemoteVersionNDownloadURL` queries the configured endpoint
at most once and exactly once on success; on success it sets the remote
version to the parsed `version` field and the download URL to the `url`
field of the JSON response; it errors whenever building or performing the
request fails, the body fails to decode, or the version string does not
parse as a float. -/
theorem claim_C6 (page : String) (env : HttpEnv) :
    ((setRemoteVersionNDownloadURL page env).1 <+: [NetOp.doRequest page]) ∧
    (∀ api q, env.newRequest = .ok () → env.doReq = .ok () → env.decode = .ok api →
      parseFloat? api.version.data = some q →
      setRemoteVersionNDownloadURL page env = ([NetOp.doRequest page], .ok (q, api.url))) ∧
    (∀ e, env.newRequest = .error e →
      exOk (setRemoteVersionNDownloadURL page env).2 = false) ∧
    (∀ e, env.doReq = .error e →
      exOk (setRemoteVersionNDownloadURL page env).2 = false) ∧
    (∀ e, env.decode = .error e →
      exOk (setRemoteVersionNDownloadURL page env).2 = false) ∧
    (∀ api, env.decode = .ok api → parseFloat? api.version.data = none →
      exOk (setRemoteVersionNDownloadURL page env).2 = false) := by
  obtain ⟨nr, dr, dec⟩ := env
  refine ⟨?_, ?_, ?_, ?_, ?_, ?_⟩
  · cases nr with
    | error e => simp [setRemoteVersionNDownloadURL]
    | ok u =>
      cases dr with
      | error e => simp [setRemoteVersionNDownloadURL]
      | ok u' =>
        cases dec with
        | error e => simp [setRemoteVersionNDownloadURL]
        | ok api =>
          cases hp : parseFloat? api.version.data with
          | some q => simp [setRemoteVersionNDownloadURL, hp]
          | none => simp [setRemoteVersionNDownloadURL, hp]
  · intro api q hnr hdr hdec hp
    cases hnr; cases hdr; cases hdec
    simp [setRemoteVersionNDownloadURL, hp]
  · intro e hnr
    cases hnr
    simp [setRemoteVersionNDownloadURL, exOk]
  · intro e hdr
    cases hdr
    cases nr with
    | error e' => simp [setRemoteVersionNDownloadURL, exOk]
    | ok u => simp [setRemoteVersionNDownloadURL, exOk]
  · intro e hdec
    cases hdec
    cases nr with
    | error e' => simp [setRemoteVersionNDownloadURL, exOk]
    | ok u =>
      cases dr with
      | error e' => simp [setRemoteVersionNDownloadURL, exOk]
      | ok u' => simp [setRemoteVersionNDownloadURL, exOk]
  · intro api hdec hp
    cases hdec
    cases nr with
    | error e' => simp [setRemoteVersionNDownloadURL, exOk]
    | ok u =>
      cases dr with
      | error e' => simp [setRemoteVersionNDownloadURL, exOk]
      | ok u' => simp [setRemoteVersionNDownloadURL, exOk, hp]

/-- Witness for C6 on a concrete successful exchange. -/
theorem claim_C6_witness :
    setRemoteVersionNDownloadURL "https://api"
        ⟨.ok (), .ok (), .ok ⟨"https://dl/x.zip", "13.3"⟩⟩ =
      ([NetOp.doRequest "https://api"], .ok (mkRat 133 10, "https://dl/x.zip")) :=
  (claim_C6 "https://api" ⟨.ok (), .ok (), .ok ⟨"https://dl/x.zip", "13.3"⟩⟩).2.1
    ⟨"https://dl/x.zip", "13.3"⟩ (mkRat 133 10) rfl rfl rfl (by decide)

/-! ### Claim C7: `init` and the registry lookup -/

/-- Claim C7: `init` resolves the install path by exactly one registry
lookup — opening `SOFTWARE\Wow6432Node\Blizzard Entertainment\World of
Warcraft` under `HKEY_LOCAL_MACHINE` and reading its `InstallPath` string
value — and joins the result with `Interface` and `AddOns`; if the key or
the value is missing, `init` fails with `cannot find WoW install directory`
and no install path is produced. -/
theorem claim_C7 (env : InitEnv) :
    ((initRun env).1 <+: [RegOp.openKey "HKEY_LOCAL_MACHINE" wowKeyPath,
        RegOp.getStringValue "InstallPath"]) ∧
    (∀ cfg e, loadConfigStep env = .ok cfg → env.openKey = .error e →
      initRun env = ([RegOp.openKey "HKEY_LOCAL_MACHINE" wowKeyPath],
        .error (wrapf "cannot find WoW install directory" e))) ∧
    (∀ cfg e, loadConfigStep env = .ok cfg → env.openKey = .ok () → env.getValue = .error e →
      initRun env = ([RegOp.openKey "HKEY_LOCAL_MACHINE" wowKeyPath,
          RegOp.getStringValue "InstallPath"],
        .error (wrapf "cannot find WoW install directory" e))) ∧
    (∀ cfg s, loadConfigStep env = .ok cfg → env.openKey = .ok () → env.getValue = .ok s →
      initRun env = ([RegOp.openKey "HKEY_LOCAL_MACHINE" wowKeyPath,
          RegOp.getStringValue "InstallPath"],
        .ok (cfg, joinClean (splitSlash s) ["Interface", "AddOns"]))) := by
  refine ⟨?_, ?_, ?_, ?_⟩
  · cases hc : loadConfigStep env with
    | error e => simp [initRun, hc]
    | ok cfg =>
      cases ho : env.openKey with
      | error e => simp [initRun, resolvePathStep, hc, ho]
      | ok u =>
        cases hv : env.getValue with
        | error e => simp [initRun, resolvePathStep, hc, ho, hv]
        | ok s => simp [initRun, resolvePathStep, hc, ho, hv]
  · intro cfg e hc ho
    simp [initRun, resolvePathStep, hc, ho]
  · intro cfg e hc ho hv
    simp [initRun, resolvePathStep, hc, ho, hv]
  · intro cfg s hc ho hv
    simp [initRun, resolvePathStep, hc, ho, hv]

/-- Witness for C7: a missing registry key aborts `init` with the
`cannot find WoW install directory` error after a single `OpenKey`. -/
theorem claim_C7_witness :
    initRun ⟨.ok (), .ok ⟨"https://api", ["ElvUI"]⟩, .error "key not found", .ok "C:\\WoW"⟩ =
      ([RegOp.openKey "HKEY_LOCAL_MACHINE" wowKeyPath],
        .error (wrapf "cannot find WoW install directory" "key not found")) :=
  (claim_C7 ⟨.ok (), .ok ⟨"https://api", ["ElvUI"]⟩, .error "key not found", .ok "C:\\WoW"⟩).2.1
    ⟨"https://api", ["ElvUI"]⟩ "key not found" rfl rfl

/-! ### Claim C9: failures before extraction leave the installation intact -/

/-- Claim C9: if the HTTP download, the body read, or opening the bytes as a
zip archive fails, `downloadAndExtract` returns the corresponding error with
an empty operation list — no `RemoveAll` and no write has been executed, so
the existing installation is unmodified; removal starts only after
`zip.NewReader` succeeds. -/
theorem claim_C9 (addon dirs : List String) (url : String) (env : DLEnv) :
    (∀ e, env.httpGet url = .error e →
      downloadAndExtract addon dirs url env =
        ([], .error (wrapf ("cannot download file url " ++ url) e))) ∧
    (∀ e, env.httpGet url = .ok () → env.readAll = .error e →
      downloadAndExtract addon dirs url env =
        ([], .error (wrapf "cannot read response" e))) ∧
    (∀ e, env.httpGet url = .ok () → env.readAll = .ok () → env.zipNew = .error e →
      downloadAndExtract addon dirs url env =
        ([], .error (wrapf "cannot create zip reader" e))) := by
  refine ⟨?_, ?_, ?_⟩
  · intro e hg
    simp [downloadAndExtract, hg]
  · intro e hg hr
    simp [downloadAndExtract, hg, hr]
  · intro e hg hr hz
    simp [downloadAndExtract, hg, hr, hz]

/-- Witness for C9: a corrupt archive produces the zip-reader error and an
empty operation list. -/
theorem claim_C9_witness :
    downloadAndExtract ["C:", "WoW", "Interface", "AddOns"] ["ElvUI"] "u"
        ⟨fun _ => .ok (), .ok (), .error "zip: not a valid zip file",
          fun _ => none, fun _ => none, fun _ => none⟩ =
      ([], .error (wrapf "cannot create zip reader" "zip: not a valid zip file")) :=
  (claim_C9 ["C:", "WoW", "Interface", "AddOns"] ["ElvUI"] "u"
      ⟨fun _ => .ok (), .ok (), .error "zip: not a valid zip file",
        fun _ => none, fun _ => none, fun _ => none⟩).2.2
    "zip: not a valid zip file" rfl rfl rfl

/-! ### Lemmas about the removal and extraction loops -/

/-- The operations issued by the removal loop form an initial segment of the
`RemoveAll`s for the configured directories, in order. -/
theorem removeLoop_ops_initSegment (addon : List String) (ff : FSOp → Option GoError)
    (ds : List String) :
    (removeLoop addon ff ds).1 <+: ds.map (removeOp addon) := by
  induction ds with
  | nil => simp [removeLoop]
  | cons d ds ih =>
    cases hf : ff (removeOp addon d) with
    | some e => simp [removeLoop, hf]
    | none =>
      simp only [removeLoop, hf, List.map_cons]
      exact List.cons_prefix_cons.mpr ⟨rfl, ih⟩

/-- When the removal loop succeeds it has issued exactly the `RemoveAll`s
for all configured directories, in order. -/
theorem removeLoop_ok_ops (addon : List String) (ff : FSOp → Option GoError)
    (ds : List String) (h : (removeLoop addon ff ds).2 = .ok ()) :
    (removeLoop addon ff ds).1 = ds.map (removeOp addon) := by
  induction ds with
  | nil => simp [removeLoop]
  | cons d ds ih =>
    cases hf : ff (removeOp addon d) with
    | some e => simp [removeLoop, hf] at h
    | none =>
      simp only [removeLoop, hf] at h ⊢
      simp [ih h]

/-- Every operation issued by the extraction loop is the `MkdirAll`/`Create`
of one of the archive entries. -/
theorem extractLoop_mem (addon : List String) (ff : FSOp → Option GoError)
    (zf cf : ZipEntry → Option GoError) (fs : List ZipEntry) :
    ∀ op ∈ (extractLoop addon ff zf cf fs).1, ∃ f ∈ fs, op = entryOp addon f := by
  induction fs with
  | nil => simp [extractLoop]
  | cons f fs ih =>
    intro op hop
    by_cases hd : f.isDir
    · simp only [extractLoop, hd, if_true] at hop
      cases hf : ff (FSOp.mkdirAll (entryPath addon f)) with
      | some e =>
        rw [hf] at hop
        simp only [List.mem_singleton] at hop
        exact ⟨f, by simp, by simp [hop, entryOp, hd]⟩
      | none =>
        rw [hf] at hop
        simp only [List.mem_cons] at hop
        rcases hop with h1 | h2
        · exact ⟨f, by simp, by simp [h1, entryOp, hd]⟩
        · obtain ⟨g, hg, hgo⟩ := ih op h2
          exact ⟨g, by simp [hg], hgo⟩
    · simp only [extractLoop, hd, if_false] at hop
      cases hz : zf f with
      | some e => rw [hz] at hop; simp at hop
      | none =>
        rw [hz] at hop
        cases hf : ff (FSOp.createFile (entryPath addon f)) with
        | some e =>
          rw [hf] at hop
          simp at hop
          exact ⟨f, by simp, by simp [hop, entryOp, hd]⟩
        | none =>
          rw [hf] at hop
          cases hc : cf f with
          | some e =>
            rw [hc] at hop
            simp at hop
            exact ⟨f, by simp, by simp [hop, entryOp, hd]⟩
          | none =>
            rw [hc] at hop
            simp at hop
            rcases hop with h1 | h2
            · exact ⟨f, by simp, by simp [h1, entryOp, hd]⟩
            · obtain ⟨g, hg, hgo⟩ := ih op h2
              exact ⟨g, by simp [hg], hgo⟩

/-- Entry operations are never a `RemoveAll`. -/
theorem entryOp_isRemove (addon : List String) (f : ZipEntry) :
    (entryOp addon f).isRemove = false := by
  by_cases hd : f.isDir <;> simp [entryOp, hd, FSOp.isRemove]

/-- Cleaning components free of `..` only appends to the base, so the base
stays an initial segment of the cleaned path. -/
theorem joinClean_extendsBase (comps : List String) (base : List String)
    (h : ∀ c ∈ comps, c ≠ "..") : base <+: joinClean base comps := by
  induction comps generalizing base with
  | nil => simp [joinClean]
  | cons c cs ih =>
    have hc : c ≠ ".." := h c (by simp)
    have htail : ∀ c' ∈ cs, c' ≠ ".." := fun c' hc' => h c' (by simp [hc'])
    have step : joinClean base (c :: cs) =
        joinClean (if c = "" then base else if c = "." then base
          else if c = ".." then base.dropLast else base ++ [c]) cs := rfl
    rw [step]
    by_cases h1 : c = ""
    · simpa [h1] using ih base htail
    · by_cases h2 : c = "."
      · simpa [h1, h2] using ih base htail
      · have h3 : (if c = "" then base else if c = "." then base
            else if c = ".." then base.dropLast else base ++ [c]) = base ++ [c] := by
          simp [h1, h2, hc]
        rw [h3]
        exact (List.prefix_append base [c]).trans (ih (base ++ [c]) htail)

/-- The target of the operation for a zip entry is the cleaned joined
path of that entry. -/
theorem entryOp_target (addon : List String) (f : ZipEntry) :
    (entryOp addon f).target = entryPath addon f := by
  by_cases hd : f.isDir <;> simp [entryOp, hd, FSOp.target]

/-- Decomposition of the operations issued by `downloadAndExtract` once the
archive is open: an initial segment of the configured removals, followed by
entry operations, with all removals complete before any entry operation. -/
theorem downloadAndExtract_decomp (addon dirs : List String) (url : String) (env : DLEnv)
    (files : List ZipEntry) (hz : env.zipNew = .ok files) :
    ∃ rops wops,
      (downloadAndExtract addon dirs url env).1 = rops ++ wops ∧
      rops <+: dirs.map (removeOp addon) ∧
      (wops ≠ [] → rops = dirs.map (removeOp addon)) ∧
      (∀ op ∈ wops, ∃ f ∈ files, op = entryOp addon f) := by
  cases hg : env.httpGet url with
  | error e =>
    exact ⟨[], [], by simp [downloadAndExtract, hg], by simp,
      fun h => absurd rfl h, by simp⟩
  | ok u =>
    cases u
    cases hra : env.readAll with
    | error e =>
      exact ⟨[], [], by simp [downloadAndExtract, hg, hra], by simp,
        fun h => absurd rfl h, by simp⟩
    | ok u' =>
      cases u'
      rcases hr : removeLoop addon env.fsFail dirs with ⟨rops, rres⟩
      have hpre := removeLoop_ops_initSegment addon env.fsFail dirs
      rw [hr] at hpre
      cases rres with
      | error e =>
        refine ⟨rops, [], ?_, hpre, fun h => absurd rfl h, by simp⟩
        simp [downloadAndExtract, hg, hra, hz, hr]
      | ok u'' =>
        cases u''
        have hall := removeLoop_ok_ops addon env.fsFail dirs (by rw [hr])
        rw [hr] at hall
        refine ⟨rops,
          (extractLoop addon env.fsFail env.zipEntryOpenFail env.copyFail files).1,
          ?_, hpre, fun _ => hall, ?_⟩
        · simp [downloadAndExtract, hg, hra, hz, hr]
        · exact extractLoop_mem addon env.fsFail env.zipEntryOpenFail env.copyFail files

/-! ### Claim C2: the frame of `downloadAndExtract` -/

/-- Counterexample to C2 as stated: an archive entry named `../evil.lua`
makes `downloadAndExtract` create a file at
`filepath.Join(installPath, "../evil.lua")`, which lies outside the
resolved install path. -/
theorem claim_C2_counterexample :
    (downloadAndExtract addonEx ["ElvUI"] "u" dlEnvSlip).1 =
      [FSOp.removeAll ["C:", "WoW", "Interface", "AddOns", "ElvUI"],
        FSOp.createFile ["C:", "WoW", "Interface", "evil.lua"]] ∧
    ¬ (addonEx <+: ["C:", "WoW", "Interface", "evil.lua"]) := by
  decide

/-- Claim C2 as amended: whenever `downloadAndExtract` runs with an archive
that opens, the configured directories are removed (an initial segment of
them if one removal fails) before any archive entry is written; every issued
operation targets `filepath.Join(installPath, name)` for a configured
directory or an archive entry name; and those targets lie under the install
path provided neither the configured directory names nor the archive entry
names contain a `..` component — an entry name with `..` components escapes
the install path, as the counterexample shows. -/
theorem claim_C2_amended (addon dirs : List String) (url : String) (env : DLEnv)
    (files : List ZipEntry) (hz : env.zipNew = .ok files) :
    (∃ rops wops,
      (downloadAndExtract addon dirs url env).1 = rops ++ wops ∧
      rops <+: dirs.map (removeOp addon) ∧
      (wops ≠ [] → rops = dirs.map (removeOp addon)) ∧
      (∀ op ∈ wops, op.isRemove = false)) ∧
    (∀ op ∈ (downloadAndExtract addon dirs url env).1,
      op.target ∈ dirs.map (fun d => joinClean addon (splitSlash d))
        ++ files.map (entryPath addon)) ∧
    ((∀ d ∈ dirs, ∀ c ∈ splitSlash d, c ≠ "..") →
      (∀ f ∈ files, ∀ c ∈ splitSlash f.name, c ≠ "..") →
      ∀ op ∈ (downloadAndExtract addon dirs url env).1, addon <+: op.target) := by
  obtain ⟨rops, wops, hsplit, hpre, hfull, hw⟩ :=
    downloadAndExtract_decomp addon dirs url env files hz
  refine ⟨⟨rops, wops, hsplit, hpre, hfull, ?_⟩, ?_, ?_⟩
  · intro op hop
    obtain ⟨f, hf, rfl⟩ := hw op hop
    exact entryOp_isRemove addon f
  · intro op hop
    rw [hsplit] at hop
    rcases List.mem_append.mp hop with h1 | h2
    · obtain ⟨d, hd, rfl⟩ := List.mem_map.mp (hpre.subset h1)
      exact List.mem_append.mpr (.inl (List.mem_map.mpr ⟨d, hd, rfl⟩))
    · obtain ⟨f, hf, rfl⟩ := hw op h2
      refine List.mem_append.mpr (.inr ?_)
      rw [entryOp_target]
      exact List.mem_map.mpr ⟨f, hf, rfl⟩
  · intro hdirs hfiles op hop
    rw [hsplit] at hop
    rcases List.mem_append.mp hop with h1 | h2
    · obtain ⟨d, hd, rfl⟩ := List.mem_map.mp (hpre.subset h1)
      exact joinClean_extendsBase (splitSlash d) addon (hdirs d hd)
    · obtain ⟨f, hf, rfl⟩ := hw op h2
      rw [entryOp_target]
      exact joinClean_extendsBase (splitSlash f.name) addon (hfiles f hf)

/-- Witness for the amended C2 on a well-formed archive: the created file
lies under the install path. -/
theorem claim_C2_amended_witness :
    addonEx <+: (FSOp.createFile ["C:", "WoW", "Interface", "AddOns", "ElvUI", "core.lua"]).target := by
  exact (claim_C2_amended addonEx ["ElvUI"] "u" dlEnvOk
      [{ name := "ElvUI/", isDir := true }, { name := "ElvUI/core.lua", isDir := false }] rfl).2.2
    (by decide) (by decide)
    (FSOp.createFile ["C:", "WoW", "Interface", "AddOns", "ElvUI", "core.lua"]) (by decide)

/-! ### Revision equivalence lemmas -/

/-- V1's removal loop issues the same operations and succeeds in the same
cases as the final revision's; only error messages differ. -/
theorem removeLoopV1_eq (addon : List String) (ff : FSOp → Option GoError)
    (ds : List String) :
    (removeLoopV1 addon ff ds).1 = (removeLoop addon ff ds).1 ∧
    exOk (removeLoopV1 addon ff ds).2 = exOk (removeLoop addon ff ds).2 := by
  induction ds with
  | nil => exact ⟨rfl, rfl⟩
  | cons d ds ih =>
    cases hf : ff (removeOp addon d) with
    | some e => simp [removeLoopV1, removeLoop, hf, exOk]
    | none => simp [removeLoopV1, removeLoop, hf, ih.1, ih.2]

/-- V2's removal loop is identical to the final revision's. -/
theorem removeLoopV2_eq (addon : List String) (ff : FSOp → Option GoError)
    (ds : List String) :
    removeLoopV2 addon ff ds = removeLoop addon ff ds := by
  induction ds with
  | nil => rfl
  | cons d ds ih =>
    cases hf : ff (removeOp addon d) with
    | some e => simp [removeLoopV2, removeLoop, hf]
    | none => simp [removeLoopV2, removeLoop, hf, ih]

/-- V1's extraction loop issues the same operations and succeeds in the same
cases as the final revision's; only error messages differ. -/
theorem extractLoopV1_eq (addon : List String) (ff : FSOp → Option GoError)
    (zf cf : ZipEntry → Option GoError) (fs : List ZipEntry) :
    (extractLoopV1 addon ff zf cf fs).1 = (extractLoop addon ff zf cf fs).1 ∧
    exOk (extractLoopV1 addon ff zf cf fs).2 = exOk (extractLoop addon ff zf cf fs).2 := by
  induction fs with
  | nil => exact ⟨rfl, rfl⟩
  | cons f fs ih =>
    by_cases hd : f.isDir
    · cases hf : ff (FSOp.mkdirAll (entryPath addon f)) with
      | some e => simp [extractLoopV1, extractLoop, hd, hf, exOk]
      | none => simp [extractLoopV1, extractLoop, hd, hf, ih.1, ih.2]
    · cases hz : zf f with
      | some e => simp [extractLoopV1, extractLoop, hd, hz, exOk]
      | none =>
        cases hf : ff (FSOp.createFile (entryPath addon f)) with
        | some e => simp [extractLoopV1, extractLoop, hd, hz, hf, exOk]
        | none =>
          cases hc : cf f with
          | some e => simp [extractLoopV1, extractLoop, hd, hz, hf, hc, exOk]
          | none => simp [extractLoopV1, extractLoop, hd, hz, hf, hc, ih.1, ih.2]

/-- V2's extraction loop is identical to the final revision's. -/
theorem extractLoopV2_eq (addon : List String) (ff : FSOp → Option GoError)
    (zf cf : ZipEntry → Option GoError) (fs : List ZipEntry) :
    extractLoopV2 addon ff zf cf fs = extractLoop addon ff zf cf fs := by
  induction fs with
  | nil => rfl
  | cons f fs ih =>
    by_cases hd : f.isDir
    · cases hf : ff (FSOp.mkdirAll (entryPath addon f)) with
      | some e => simp [extractLoopV2, extractLoop, hd, hf]
      | none => simp [extractLoopV2, extractLoop, hd, hf, ih]
    · cases hz : zf f with
      | some e => simp [extractLoopV2, extractLoop, hd, hz]
      | none =>
        cases hf : ff (FSOp.createFile (entryPath addon f)) with
        | some e => simp [extractLoopV2, extractLoop, hd, hz, hf]
        | none =>
          cases hc : cf f with
          | some e => simp [extractLoopV2, extractLoop, hd, hz, hf, hc]
          | none => simp [extractLoopV2, extractLoop, hd, hz, hf, hc, ih]

/-! ### Claim C8: the three revisions agree from the comparison onward -/

/-- Claim C8: given the same local version, remote version, download bytes
and directory list — expressed by the download oracle answering the V1/V2
constructed link and the configured URL alike — the three revisions perform
the same strict-greater version comparison and issue the same
remove-then-extract operation sequence with the same success or failure,
differing only in how the remote version and the download URL are obtained. -/
theorem claim_C8 (lv rv : ℚ) (localName : String) (addon dirs : List String)
    (url : String) (env : DLEnv)
    (h1 : env.httpGet (dlLinkV1 localName rv) = env.httpGet url)
    (h2 : env.httpGet (dlLinkV2 localName rv) = env.httpGet url) :
    (upgradeNeededV1 rv lv = upgradeNeededV3 rv lv ∧
      upgradeNeededV2 rv lv = upgradeNeededV3 rv lv) ∧
    ((downloadAndExtractV1 localName rv addon dirs env).1 =
        (downloadAndExtract addon dirs url env).1 ∧
      exOk (downloadAndExtractV1 localName rv addon dirs env).2 =
        exOk (downloadAndExtract addon dirs url env).2) ∧
    ((downloadAndExtractV2 localName rv addon dirs env).1 =
        (downloadAndExtract addon dirs url env).1 ∧
      exOk (downloadAndExtractV2 localName rv addon dirs env).2 =
        exOk (downloadAndExtract addon dirs url env).2) := by
  refine ⟨⟨rfl, rfl⟩, ?_, ?_⟩
  · simp only [downloadAndExtractV1, downloadAndExtract, h1]
    cases hg : env.httpGet url with
    | error e => exact ⟨rfl, rfl⟩
    | ok u =>
      cases u
      cases hra : env.readAll with
      | error e => exact ⟨rfl, rfl⟩
      | ok u' =>
        cases u'
        cases hz : env.zipNew with
        | error e => exact ⟨rfl, rfl⟩
        | ok files =>
          rcases hrv : removeLoopV1 addon env.fsFail dirs with ⟨rops1, rres1⟩
          rcases hr : removeLoop addon env.fsFail dirs with ⟨rops, rres⟩
          have heq := removeLoopV1_eq addon env.fsFail dirs
          rw [hrv, hr] at heq
          cases rres with
          | error e =>
            cases rres1 with
            | error e1 => exact ⟨heq.1, rfl⟩
            | ok u1 => simp [exOk] at heq
          | ok u =>
            cases u
            cases rres1 with
            | error e1 => simp [exOk] at heq
            | ok u1 =>
              cases u1
              have hext :=
                extractLoopV1_eq addon env.fsFail env.zipEntryOpenFail env.copyFail files
              have hro : rops1 = rops := heq.1
              constructor
              · show rops1 ++ (extractLoopV1 addon env.fsFail env.zipEntryOpenFail
                    env.copyFail files).1 =
                  rops ++ (extractLoop addon env.fsFail env.zipEntryOpenFail
                    env.copyFail files).1
                rw [hro, hext.1]
              · exact hext.2
  · simp only [downloadAndExtractV2, downloadAndExtract, h2, removeLoopV2_eq,
      extractLoopV2_eq]
    cases hg : env.httpGet url with
    | error e => exact ⟨rfl, rfl⟩
    | ok u =>
      cases u
      cases hra : env.readAll with
      | error e => exact ⟨rfl, rfl⟩
      | ok u' =>
        cases u'
        cases hz : env.zipNew with
        | error e => exact ⟨rfl, rfl⟩
        | ok files =>
          rcases hr : removeLoop addon env.fsFail dirs with ⟨rops, rres⟩
          cases rres with
          | error e => exact ⟨rfl, rfl⟩
          | ok u'' => cases u''; exact ⟨rfl, rfl⟩

/-- Witness for C8 on a concrete run with identical oracle answers. -/
theorem claim_C8_witness :
    (downloadAndExtractV1 "ElvUI" (mkRat 133 10) addonEx ["ElvUI"] dlEnvOk).1 =
      (downloadAndExtract addonEx ["ElvUI"] "https://dl/x.zip" dlEnvOk).1 :=
  (claim_C8 (mkRat 132 10) (mkRat 133 10) "ElvUI" addonEx ["ElvUI"]
    "https://dl/x.zip" dlEnvOk rfl rfl).2.1.1

/-! ### Claim C1: the version comparison gates the download -/

/-- Claim C1: when both versions are successfully obtained, `main` invokes
`downloadAndExtract` if and only if the parsed remote version is strictly
greater than the parsed local version; when the remote version is less than
or equal to the local version, no download stage runs, no filesystem
operation is issued, `Nothing to do` is logged and the run ends normally. -/
theorem claim_C1 (w : World) (cfg : Config) (addon : List String) (lv rv : ℚ) (url : String)
    (hc : loadConfigStep w.initEnv = .ok cfg)
    (hp : (resolvePathStep w.initEnv).2 = .ok addon)
    (hl : getLocalVersion (tocPathOf addon "ElvUI") w.tocOpen = .ok lv)
    (hr : (setRemoteVersionNDownloadURL cfg.Page w.http).2 = .ok (rv, url)) :
    (Stage.download ∈ (mainRun w).trace ↔ lv < rv) ∧
    (rv ≤ lv →
      mainRun w =
        ⟨[.loadConfig, .resolvePath, .readLocal, .fetchRemote, .compare],
          ["Nothing to do"], [], .normal⟩) := by
  by_cases hlt : lv < rv
  · refine ⟨⟨fun _ => hlt, fun _ => ?_⟩, fun hle => absurd hlt (not_lt.mpr hle)⟩
    simp only [mainRun, hc, hp, hl, hr, hlt, if_true]
    rcases hd : downloadAndExtract addon cfg.Directories url w.dl with ⟨ops, res⟩
    cases res <;> simp [fullPipeline]
  · have hmr : mainRun w =
        ⟨[.loadConfig, .resolvePath, .readLocal, .fetchRemote, .compare],
          ["Nothing to do"], [], .normal⟩ := by
      simp [mainRun, hc, hp, hl, hr, hlt]
    refine ⟨⟨fun hmem => ?_, fun h => absurd h hlt⟩, fun _ => hmr⟩
    rw [hmr] at hmem
    simp at hmem

/-- Witness for C1: a run whose remote version is older logs
`Nothing to do`, issues no filesystem operation and skips the download. -/
theorem claim_C1_witness :
    mainRun worldUpToDate =
      ⟨[.loadConfig, .resolvePath, .readLocal, .fetchRemote, .compare],
        ["Nothing to do"], [], .normal⟩ :=
  (claim_C1 worldUpToDate { Page := "https://api", Directories := ["ElvUI"] }
      addonEx (mkRat 133 10) (mkRat 132 10) "https://dl/x.zip"
      (by decide) (by decide) (by decide) (by decide)).2 (by decide)

/-! ### Claim C3: fail-fast error handling -/

/-- Claim C3: every pipeline stage that runs and returns an error makes the
process log `Fatal:` with that error and terminate with exit status 1,
entering no later stage; there is no retry or recovery. -/
theorem claim_C3 (w : World) (s : Stage) (e : GoError) (h : runsAndFails w s e) :
    (mainRun w).outcome = .fatal e ∧
    exitCode (mainRun w).outcome = 1 ∧
    fatalLog e ∈ (mainRun w).logs ∧
    (mainRun w).trace = stagesUpTo s ∧
    (∀ s', s' ∈ (mainRun w).trace → stageIdx s' ≤ stageIdx s) := by
  cases s with
  | loadConfig =>
    have hc : loadConfigStep w.initEnv = .error e := h
    have hmr : mainRun w = ⟨[.loadConfig], [fatalLog e], [], .fatal e⟩ := by
      simp [mainRun, hc]
    rw [hmr]
    exact ⟨rfl, rfl, by simp, rfl, by intro s' hs'; fin_cases hs'; decide⟩
  | resolvePath =>
    obtain ⟨⟨cfg, hc⟩, hp⟩ := h
    have hmr : mainRun w = ⟨[.loadConfig, .resolvePath], [fatalLog e], [], .fatal e⟩ := by
      simp [mainRun, hc, hp]
    rw [hmr]
    exact ⟨rfl, rfl, by simp, rfl, by intro s' hs'; fin_cases hs' <;> decide⟩
  | readLocal =>
    obtain ⟨cfg, p, hc, hp, hl⟩ := h
    have hmr : mainRun w =
        ⟨[.loadConfig, .resolvePath, .readLocal], [fatalLog e], [], .fatal e⟩ := by
      simp [mainRun, hc, hp, hl]
    rw [hmr]
    exact ⟨rfl, rfl, by simp, rfl, by intro s' hs'; fin_cases hs' <;> decide⟩
  | fetchRemote =>
    obtain ⟨cfg, p, lv, hc, hp, hl, hr⟩ := h
    have hmr : mainRun w =
        ⟨[.loadConfig, .resolvePath, .readLocal, .fetchRemote], [fatalLog e], [], .fatal e⟩ := by
      simp [mainRun, hc, hp, hl, hr]
    rw [hmr]
    exact ⟨rfl, rfl, by simp, rfl, by intro s' hs'; fin_cases hs' <;> decide⟩
  | compare => exact h.elim
  | download =>
    obtain ⟨cfg, p, lv, rv, u, hc, hp, hl, hr, hlt, hdl⟩ := h
    rcases hd : downloadAndExtract p cfg.Directories u w.dl with ⟨ops, res⟩
    rw [hd] at hdl
    have hres : res = .error e := hdl
    subst hres
    have hmr : mainRun w = ⟨fullPipeline, ["Upgrading", fatalLog e], ops, .fatal e⟩ := by
      simp [mainRun, hc, hp, hl, hr, hlt, hd]
    rw [hmr]
    exact ⟨rfl, rfl, by simp, rfl, by intro s' hs'; cases s' <;> decide⟩

/-- Witness for C3: a failing remote fetch aborts the run fatally right
after the fetch stage. -/
theorem claim_C3_witness :
    (mainRun worldRemoteDown).outcome = .fatal "boom" ∧
    (mainRun worldRemoteDown).trace = stagesUpTo .fetchRemote :=
  have hw : runsAndFails worldRemoteDown .fetchRemote "boom" :=
    ⟨{ Page := "https://api", Directories := ["ElvUI"] }, addonEx, mkRat 133 10,
      by decide, by decide, by decide, by decide⟩
  ⟨(claim_C3 worldRemoteDown .fetchRemote "boom" hw).1,
    (claim_C3 worldRemoteDown .fetchRemote "boom" hw).2.2.2.1⟩

/-! ### Claim C5: the fixed pipeline order -/

/-- Reduction helper: the trace properties of a run result depend only on
its trace component. -/
theorem traceProps (t : List Stage) (lg : List String) (ops : List FSOp) (o : Outcome)
    (h : t <+: fullPipeline ∧ t.Nodup ∧ Stage.loadConfig ∈ t) :
    (RunResult.mk t lg ops o).trace <+: fullPipeline ∧
    (RunResult.mk t lg ops o).trace.Nodup ∧
    Stage.loadConfig ∈ (RunResult.mk t lg ops o).trace := h

/-- Claim C5: every run's stage trace is an initial segment of the fixed
pipeline order (configuration load, install-path resolution, local version
read, remote version fetch, comparison, conditional download): stages are
never repeated, reordered, or skipped while a later stage runs. -/
theorem claim_C5 (w : World) :
    (mainRun w).trace <+: fullPipeline ∧
    (mainRun w).trace.Nodup ∧
    Stage.loadConfig ∈ (mainRun w).trace := by
  cases hc : loadConfigStep w.initEnv with
  | error e =>
    have hmr : mainRun w = ⟨[.loadConfig], [fatalLog e], [], .fatal e⟩ := by
      simp [mainRun, hc]
    exact hmr ▸ traceProps _ _ _ _ (by decide)
  | ok cfg =>
    cases hp : (resolvePathStep w.initEnv).2 with
    | error e =>
      have hmr : mainRun w = ⟨[.loadConfig, .resolvePath], [fatalLog e], [], .fatal e⟩ := by
        simp [mainRun, hc, hp]
      exact hmr ▸ traceProps _ _ _ _ (by decide)
    | ok addon =>
      cases hl : getLocalVersion (tocPathOf addon "ElvUI") w.tocOpen with
      | error e =>
        have hmr : mainRun w =
            ⟨[.loadConfig, .resolvePath, .readLocal], [fatalLog e], [], .fatal e⟩ := by
          simp [mainRun, hc, hp, hl]
        exact hmr ▸ traceProps _ _ _ _ (by decide)
      | ok lv =>
        cases hr : (setRemoteVersionNDownloadURL cfg.Page w.http).2 with
        | error e =>
          have hmr : mainRun w =
              ⟨[.loadConfig, .resolvePath, .readLocal, .fetchRemote],
                [fatalLog e], [], .fatal e⟩ := by
            simp [mainRun, hc, hp, hl, hr]
          exact hmr ▸ traceProps _ _ _ _ (by decide)
        | ok pr =>
          rcases pr with ⟨rv, url⟩
          by_cases hlt : lv < rv
          · rcases hd : downloadAndExtract addon cfg.Directories url w.dl with ⟨ops, res⟩
            cases res with
            | error e =>
              have hmr : mainRun w =
                  ⟨fullPipeline, ["Upgrading", fatalLog e], ops, .fatal e⟩ := by
                simp [mainRun, hc, hp, hl, hr, hlt, hd]
              exact hmr ▸ traceProps _ _ _ _ (by decide)
            | ok u =>
              have hmr : mainRun w =
                  ⟨fullPipeline, ["Upgrading", "Success"], ops, .normal⟩ := by
                simp [mainRun, hc, hp, hl, hr, hlt, hd]
              exact hmr ▸ traceProps _ _ _ _ (by decide)
          · have hmr : mainRun w =
                ⟨[.loadConfig, .resolvePath, .readLocal, .fetchRemote, .compare],
                  ["Nothing to do"], [], .normal⟩ := by
              simp [mainRun, hc, hp, hl, hr, hlt]
            exact hmr ▸ traceProps _ _ _ _ (by decide)

end Elvui
